import Mathlib

/-!
Verification of the directory-listing core (`src/commands/ls.py`) of PyKnife.

The Python source is shallowly embedded below: pure helper functions
(`format_size`, `format_mode`, `get_color_for_file`) become Lean functions,
the sorting stage is modelled with a stable insertion sort (Python's
`list.sort` is documented to be stable, and `reverse=True` keeps equal
elements in their original order, which is exactly what a stable sort by
the flipped comparison does), and the effectful parts of `list_directory`
and `main` become explicit functions from an abstract filesystem/OS state
to output lines, error lines and an exit code.

Machine floats in `format_size` are modelled by exact rationals: the loop
only divides by 1024, which is exact in binary floating point for every
byte count below 2^53, so the rational model agrees with CPython on that
whole range (and on every concrete value appearing in the claims).
-/

namespace PyKnifeLs

/-! ### Stable sorting, modelling Python's `list.sort`

Python's `list.sort(key=k)` is a stable ascending sort; `list.sort(key=k,
reverse=True)` is a stable descending sort (equal-key elements keep their
original relative order in both cases).  Mathlib's `List.insertionSort` is
stable for a total preorder, so we instantiate it with the key order and
with the flipped key order respectively. -/

/-- Stable ascending sort by a key, as performed by `list.sort(key=key)`. -/
def sortAsc {α κ : Type} [LinearOrder κ] (key : α → κ) (l : List α) : List α :=
  l.insertionSort (fun a b => key a ≤ key b)

/-- Stable descending sort by a key, as performed by
`list.sort(key=key, reverse=True)`. -/
def sortDesc {α κ : Type} [LinearOrder κ] (key : α → κ) (l : List α) : List α :=
  l.insertionSort (fun a b => key b ≤ key a)


/-! ### Data model

`Stat` is the slice of `os.stat_result` that `ls.py` reads.  `Entry` is a
directory entry as seen by `list_directory`: a name together with the
result of `os.stat` (used by the sorting stage, `None` when the call
raises `OSError`) and of `os.lstat` (used by the rendering stages). -/

/-- The fields of an `os.stat_result` used by `ls.py`. -/
structure Stat where
  st_mode : Nat
  st_nlink : Nat
  st_uid : Nat
  st_gid : Nat
  st_size : Nat
  st_mtime : Int
deriving DecidableEq, Repr

/-- A directory entry: its name plus the outcomes of `os.stat` and
`os.lstat` on its full path (`none` models a raised `OSError`). -/
structure Entry where
  name : String
  stat : Option Stat
  lstat : Option Stat
deriving DecidableEq, Repr

/-- The `--color` choices of `parse_args`. -/
inductive ColorMode where
  | never
  | auto
  | always
deriving DecidableEq, Repr

/-- The parsed options of `ls.py` that the listing pipeline reads. -/
structure Options where
  all : Bool
  l : Bool
  human_readable : Bool
  directory : Bool
  recursive : Bool
  one_per_line : Bool
  multicolumn : Bool
  reverse : Bool
  sort_by_size : Bool
  sort_by_time : Bool
  color : ColorMode
deriving DecidableEq, Repr

/-! ### `format_size` -/

/-- The unit-suffix table of `format_size`. -/
def sizeUnits : List String := ["", "K", "M", "G", "T", "P", "E", "Z", "Y"]

/-- Round a rational to the nearest integer, ties to the even integer.
This is the rounding CPython's `format(v, '.1f')` applies to the exact
value of the double `v * 10` (every value reached in `format_size` is a
dyadic rational below 2^53, hence exactly representable). -/
def roundHalfEven (q : ℚ) : ℤ :=
  if q - ⌊q⌋ < 1 / 2 then ⌊q⌋
  else if 1 / 2 < q - ⌊q⌋ then ⌊q⌋ + 1
  else if ⌊q⌋ % 2 = 0 then ⌊q⌋ else ⌊q⌋ + 1

/-- Render a nonnegative rational with exactly one decimal digit, as
CPython's `f"{size:.1f}"` does. -/
def oneDecimalStr (v : ℚ) : String :=
  let m := roundHalfEven (v * 10)
  toString (m / 10) ++ "." ++ toString (m % 10)

/-- The `while size >= 1024 and unit_idx < len(units) - 1` loop of
`format_size`.  The fuel argument only bounds the iteration count; the
loop guard `idx < 8` makes fuel `8 - idx` always sufficient. -/
def humanLoopAux : Nat → ℚ → Nat → ℚ × Nat
  | 0, size, idx => (size, idx)
  | fuel + 1, size, idx =>
    if 1024 ≤ size ∧ idx < 8 then humanLoopAux fuel (size / 1024) (idx + 1)
    else (size, idx)

/-- The division loop of `format_size`, started at unit index 0. -/
def humanLoop (size : ℚ) : ℚ × Nat := humanLoopAux 8 size 0

/-- `format_size(size, human_readable)` from `ls.py`.  Python's float
arithmetic is modelled by exact rationals (division by 1024 is exact in
binary floating point below 2^53). -/
def format_size (size : Nat) (human_readable : Bool) : String :=
  if ¬ human_readable then toString size
  else
    let p := humanLoop (size : ℚ)
    let unit := sizeUnits.getD p.2 ""
    if p.2 = 0 then toString size
    else if p.1 < 10 then
      if p.1 = 1 then "1" ++ unit else oneDecimalStr p.1 ++ unit
    else toString ⌊p.1⌋ ++ unit

/-- The number of divisions the `format_size` loop performs on input `n`:
the largest `k` with `1024 ^ k ≤ n`, capped at the last unit index 8. -/
def unitIndex (n : Nat) : Nat := min (Nat.log 1024 n) 8

/-! ### `format_mode` -/

/-- The file-type letter chosen by the `if`/`elif` chain at the top of
`format_mode` (`stat.S_ISDIR` etc. test `mode & 0o170000` against the
respective file-type constant). -/
def fileTypeChar (mode : Nat) : Char :=
  if mode &&& 0o170000 = 0o040000 then 'd'
  else if mode &&& 0o170000 = 0o120000 then 'l'
  else if mode &&& 0o170000 = 0o010000 then 'p'
  else if mode &&& 0o170000 = 0o140000 then 's'
  else if mode &&& 0o170000 = 0o060000 then 'b'
  else if mode &&& 0o170000 = 0o020000 then 'c'
  else '-'

/-- The ten characters accumulated by `format_mode`, in order. -/
def formatModeChars (mode : Nat) : List Char :=
  [fileTypeChar mode,
   if mode &&& 0o400 ≠ 0 then 'r' else '-',
   if mode &&& 0o200 ≠ 0 then 'w' else '-',
   if mode &&& 0o4000 ≠ 0 then (if mode &&& 0o100 ≠ 0 then 's' else 'S')
   else (if mode &&& 0o100 ≠ 0 then 'x' else '-'),
   if mode &&& 0o40 ≠ 0 then 'r' else '-',
   if mode &&& 0o20 ≠ 0 then 'w' else '-',
   if mode &&& 0o2000 ≠ 0 then (if mode &&& 0o10 ≠ 0 then 's' else 'S')
   else (if mode &&& 0o10 ≠ 0 then 'x' else '-'),
   if mode &&& 0o4 ≠ 0 then 'r' else '-',
   if mode &&& 0o2 ≠ 0 then 'w' else '-',
   if mode &&& 0o1000 ≠ 0 then (if mode &&& 0o1 ≠ 0 then 't' else 'T')
   else (if mode &&& 0o1 ≠ 0 then 'x' else '-')]

/-- `format_mode(mode)` from `ls.py`. -/
def format_mode (mode : Nat) : String := ⟨formatModeChars mode⟩

/-! ### Colorization -/

/-- `get_color_for_file` from `ls.py` (the `path` argument is unused in
the source; the decision only reads the mode bits). -/
def get_color_for_file (mode : Nat) : String :=
  if mode &&& 0o170000 = 0o040000 then "\x1b[1;34m"
  else if mode &&& 0o170000 = 0o120000 then "\x1b[1;36m"
  else if mode &&& 0o170000 = 0o010000 then "\x1b[33m"
  else if mode &&& 0o170000 = 0o140000 then "\x1b[1;35m"
  else if mode &&& 0o170000 = 0o060000 then "\x1b[1;33m"
  else if mode &&& 0o170000 = 0o020000 then "\x1b[1;33m"
  else if mode &&& 0o111 ≠ 0 then "\x1b[1;32m"
  else ""

/-- The guard `options.color != "never" and (options.color == "always" or
sys.stdout.isatty())` that every rendering branch applies. -/
def shouldColor (cm : ColorMode) (isatty : Bool) : Bool :=
  cm ≠ ColorMode.never && (cm = ColorMode.always || isatty)

/-- Wrap a name in its ANSI color (`f"{color}{entry}\033[0m"`) when the
color guard holds and the classifier returns a color. -/
def colorizeName (cm : ColorMode) (isatty : Bool) (mode : Nat)
    (name : String) : String :=
  if shouldColor cm isatty && get_color_for_file mode ≠ "" then
    get_color_for_file mode ++ name ++ "\x1b[0m"
  else name

/-! ### Hidden-entry filter -/

/-- `entry.startswith('.')`: for the one-character needle this is exactly
"the first character is a dot". -/
def startsWithDot (s : String) : Bool :=
  match s.data with
  | [] => false
  | c :: _ => c = '.'

/-- The hidden-entry filter of `list_directory`: without `-a`, names
starting with `.` are removed; with `-a`, the synthetic `.` and `..`
entries are prepended. -/
def filterHiddenStage (all : Bool) (names : List String) : List String :=
  if ¬ all then names.filter (fun n => ¬ startsWithDot n)
  else "." :: ".." :: names

/-! ### The sorting stage of `list_directory`

For the size/time sorts the code stats every entry, silently dropping the
ones whose `os.stat` raises, and sorts the surviving `(entry, stat)`
pairs; the name sort sorts the name strings themselves.  Both sorts are a
single `list.sort(..., reverse=...)` call, i.e. a stable sort in the
requested direction. -/

/-- The `(entry, stat_info)` pairs the size/time sorts operate on: entries
whose `os.stat` fails are skipped (`continue`). -/
def statOkPairs (entries : List Entry) : List (Entry × Stat) :=
  entries.filterMap (fun e => e.stat.map (fun s => (e, s)))

/-- The sorting stage of `list_directory`, returning the entry names in
their final order.  `reverse=not options.reverse` in the source means the
size/time sorts are stable-descending by default and stable-ascending
under `-r`; the name sort is the opposite. -/
def sortStage (opts : Options) (entries : List Entry) : List String :=
  if opts.sort_by_time then
    (if opts.reverse then sortAsc (fun p => p.2.st_mtime) (statOkPairs entries)
     else sortDesc (fun p => p.2.st_mtime) (statOkPairs entries)).map
      (fun p => p.1.name)
  else if opts.sort_by_size then
    (if opts.reverse then sortAsc (fun p => p.2.st_size) (statOkPairs entries)
     else sortDesc (fun p => p.2.st_size) (statOkPairs entries)).map
      (fun p => p.1.name)
  else
    if opts.reverse then
      sortDesc (fun s : String => s.data) (entries.map (fun e => e.name))
    else sortAsc (fun s : String => s.data) (entries.map (fun e => e.name))

/-- Pairwise distinctness of the active sort key's values, the condition
under which the reverse flag exactly reverses the listing. -/
def sortKeysDistinct (opts : Options) (entries : List Entry) : Prop :=
  if opts.sort_by_time then
    ((statOkPairs entries).map (fun p => p.2.st_mtime)).Pairwise (· ≠ ·)
  else if opts.sort_by_size then
    ((statOkPairs entries).map (fun p => p.2.st_size)).Pairwise (· ≠ ·)
  else (entries.map (fun e => e.name)).Pairwise (· ≠ ·)

/-! ### Multi-column grid layout

A rendered cell is the display text plus its visible width — the length
after `strip_ansi_codes`, which for `colorizeName` output is the length of
the bare name (file names themselves contain no escape sequences). -/

/-- A display-ready name: its text (possibly containing ANSI escapes) and
its visible width `len(strip_ansi_codes(text))`. -/
structure Rendered where
  text : String
  vlen : Nat
deriving DecidableEq, Repr

/-- `max(len(strip_ansi_codes(entry)) for entry in colored_entries)`. -/
def maxVisibleWidth (es : List Rendered) : Nat :=
  (es.map (fun e => e.vlen)).foldr max 0

/-- `num_cols = max(1, term_width // max_entry_len)` with
`max_entry_len = maxVisibleWidth + 2`. -/
def numCols (w : Nat) (es : List Rendered) : Nat :=
  max 1 (w / (maxVisibleWidth es + 2))

/-- `num_rows = (len(colored_entries) + num_cols - 1) // num_cols`. -/
def numRows (w : Nat) (es : List Rendered) : Nat :=
  (es.length + numCols w es - 1) / numCols w es

/-- The cells printed on grid row `r`, in column order: cell `(r, c)`
holds entry `c * num_rows + r`; the `break` of the source is modelled by
the out-of-range lookup returning `none` (the index grows with `c`, so
once it passes the end every later column is also past the end). -/
def gridRowCells (w : Nat) (es : List Rendered) (r : Nat) : List Rendered :=
  (List.range (numCols w es)).filterMap (fun c => es[c * numRows w es + r]?)

/-- The grid, printed row by row. -/
def gridCells (w : Nat) (es : List Rendered) : List (List Rendered) :=
  (List.range (numRows w es)).map (gridRowCells w es)

/-- A run of spaces. -/
def spacesStr (n : Nat) : String := String.mk (List.replicate n ' ')

/-- One printed grid line: each cell except the last column is padded on
the right to `max_entry_len` using the visible width. -/
def gridLine (w : Nat) (es : List Rendered) (r : Nat) : String :=
  String.join ((List.range (numCols w es)).filterMap (fun c =>
    (es[c * numRows w es + r]?).map (fun e =>
      if c < numCols w es - 1 then
        e.text ++ spacesStr (maxVisibleWidth es + 2 - e.vlen)
      else e.text)))

/-- All printed grid lines. -/
def gridLines (w : Nat) (es : List Rendered) : List String :=
  (List.range (numRows w es)).map (gridLine w es)

/-! ### Rendering dispatch of `list_directory` -/

/-- The colorized display form of an entry in the `-1` and default
branches: `os.lstat` failure (`except OSError: pass`) leaves the name
uncolored but still printed. -/
def renderedName (cm : ColorMode) (isatty : Bool) (e : Entry) : Rendered :=
  match e.lstat with
  | some st =>
    { text := colorizeName cm isatty st.st_mode e.name, vlen := e.name.length }
  | none => { text := e.name, vlen := e.name.length }

/-- One long-format output row, with each column kept as a structured
field (the final `print` only concatenates them with width padding). -/
structure LongRow where
  mode_str : String
  nlink : Nat
  user : String
  group : String
  size_str : String
  mtime : Int
  name : String
deriving DecidableEq, Repr

/-- The long-format branch of `list_directory`: entries whose `os.lstat`
raises are skipped (`continue`), the rest are rendered in order.
`userName`/`groupName` model the platform's `pwd`/`grp` databases with
their numeric-id fallback. -/
def longRows (userName groupName : Nat → String) (human : Bool)
    (cm : ColorMode) (isatty : Bool) (entries : List Entry) : List LongRow :=
  (entries.filterMap (fun e => e.lstat.map (fun st => (e.name, st)))).map
    (fun p =>
      { mode_str := format_mode p.2.st_mode
        nlink := p.2.st_nlink
        user := userName p.2.st_uid
        group := groupName p.2.st_gid
        size_str := format_size p.2.st_size human
        mtime := p.2.st_mtime
        name := colorizeName cm isatty p.2.st_mode p.1 })

/-- The output of one directory rendering: either long-format rows or
plain text lines. -/
inductive RenderOut where
  | long (rows : List LongRow)
  | lines (outLines : List String)
deriving DecidableEq, Repr

/-- The `if options.l / elif options.one_per_line / else` rendering
dispatch of `list_directory` for one directory's (already filtered and
sorted) entries. -/
def renderStage (userName groupName : Nat → String) (opts : Options)
    (isatty : Bool) (termWidth : Nat) (entries : List Entry) : RenderOut :=
  if opts.l then
    RenderOut.long
      (longRows userName groupName opts.human_readable opts.color isatty entries)
  else if opts.one_per_line then
    RenderOut.lines (entries.map (fun e => (renderedName opts.color isatty e).text))
  else
    let colored := entries.map (renderedName opts.color isatty)
    if isatty = false && opts.multicolumn = false then
      RenderOut.lines (colored.map (fun e => e.text))
    else RenderOut.lines (gridLines termWidth colored)

/-- The result of `list_directory` on one directory: rendered long rows,
error-stream lines, and the returned exit code. -/
structure DirResult where
  rows : List LongRow
  errLines : List String
  exitCode : Nat
deriving DecidableEq, Repr

/-- `list_directory` under `-l` on a directory: if `os.listdir` raises
(`Except.error strerror`), the handler prints one error line and returns
1; otherwise the long rows are produced, nothing is written to the error
stream, and 0 is returned — also when individual entries fail to stat. -/
def list_directory_long (userName groupName : Nat → String) (opts : Options)
    (isatty : Bool) (directory : String)
    (listing : Except String (List Entry)) : DirResult :=
  match listing with
  | Except.error strerror =>
    { rows := []
      errLines := ["ls: cannot access '" ++ directory ++ "': " ++ strerror]
      exitCode := 1 }
  | Except.ok entries =>
    { rows := longRows userName groupName opts.human_readable opts.color isatty
        entries
      errLines := []
      exitCode := 0 }

/-! ### The recursive tail of `list_directory`

With `-R`, after a directory's own block the source iterates over the
sorted `full_paths`, and for each non-symlink subdirectory other than
`.`/`..` whose raw listing is nonempty it prints `f"\n{path}:"` (a blank
line plus a header) followed by the subdirectory's entry names, sorted
ascending and hidden-filtered — it does not apply the long/column
renderers there and it does not descend further. -/

/-- An abstract filesystem node, as far as the recursive tail looks at
one: a plain file, a symlink, or a directory with named children. -/
inductive FsNode where
  | file (st : Stat)
  | link (st : Stat)
  | dir (listing : List (String × FsNode))

/-- The names of a node's children (empty for non-directories). -/
def childNames : FsNode → List String
  | FsNode.dir listing => listing.map (fun c => c.1)
  | _ => []

/-- `for subentry in sorted(subdir_entries): if not
subentry.startswith('.') or options.all: print(subentry)`. -/
def hiddenSortedNames (all : Bool) (names : List String) : List String :=
  (sortAsc (fun s : String => s.data) names).filter
    (fun sub => !(startsWithDot sub) || all)

/-- The recursive tail of `list_directory` as written in the source, run
on the (already sorted) children of the current directory. -/
def recursiveTailCode (all : Bool) (dirPath : String)
    (children : List (String × FsNode)) : List String :=
  children.flatMap (fun c =>
    match c.2 with
    | FsNode.dir listing =>
      if c.1 = "." ∨ c.1 = ".." then []
      else if listing.isEmpty then []
      else "" :: (dirPath ++ "/" ++ c.1 ++ ":") ::
        hiddenSortedNames all (listing.map (fun e => e.1))
    | _ => [])

/-- Modelled from the spec: the recursion it describes ("descend into
each subdirectory (excluding `.`/`..`) and repeat step 2/4, printing a
blank line and a `path:` header before each subdirectory's block"), with
the repeated step-2 pipeline instantiated at the default options
(hidden-filter, ascending name sort, one name per line).  The fuel bounds
the recursion depth; any fuel at least the tree height gives the full
recursive listing the spec asks for. -/
def specTailFuel (fuel : Nat) (all : Bool) (dirPath : String)
    (children : List (String × FsNode)) : List String :=
  match fuel with
  | 0 => []
  | fuel + 1 =>
    children.flatMap (fun c =>
      match c.2 with
      | FsNode.dir listing =>
        if c.1 = "." ∨ c.1 = ".." then []
        else
          "" :: (dirPath ++ "/" ++ c.1 ++ ":") ::
            (sortAsc (fun s : String => s.data)
              (filterHiddenStage all (listing.map (fun e => e.1))) ++
             specTailFuel fuel all (dirPath ++ "/" ++ c.1) listing)
      | _ => [])

/-- The corrected description of the recursive tail: one level only, in
listing order, restricted to nonempty non-dot subdirectories, each block
being a blank line, a `path:` header, and the subdirectory's names sorted
ascending with hidden names filtered unless `-a`. -/
def amendedRecursiveSpec (all : Bool) (dirPath : String)
    (children : List (String × FsNode)) : List String :=
  (children.filter (fun c =>
      (match c.2 with
       | FsNode.dir listing => !listing.isEmpty
       | _ => false)
      && !(c.1 = "." || c.1 = ".."))).flatMap
    (fun c =>
      "" :: (dirPath ++ "/" ++ c.1 ++ ":") ::
        hiddenSortedNames all (childNames c.2))

/-! ### The per-path loop of `main` -/

/-- What the OS does with one command-line path: the path is missing
(`os.path.exists` is false), it is processed successfully, or
`list_directory` reports a failure and returns 1. -/
inductive PathFate where
  | missing
  | ok
  | listFail (msg : String)
deriving DecidableEq, Repr

/-- The error-stream lines `main` emits for one path. -/
def pathStderr (p : String) : PathFate → List String
  | PathFate.missing =>
    ["ls: cannot access '" ++ p ++ "': No such file or directory"]
  | PathFate.ok => []
  | PathFate.listFail msg => [msg]

/-- The contribution of one path to the exit code. -/
def pathCode : PathFate → Nat
  | PathFate.missing => 1
  | PathFate.ok => 0
  | PathFate.listFail _ => 1

/-- The per-path loop of `main`: every path is processed in order, its
error lines are appended to the error stream, and `exit_code` is latched
to 1 by any failure without stopping the loop. -/
def mainLoop : List (String × PathFate) → Nat × List String
  | [] => (0, [])
  | q :: rest =>
    let r := mainLoop rest
    (max (pathCode q.2) r.1, pathStderr q.1 q.2 ++ r.2)

/-! ### Concrete inputs used by the theorems below -/

/-- Options selecting the size sort with no reversal. -/
def tieOpts : Options :=
  { all := false, l := false, human_readable := false, directory := false,
    recursive := false, one_per_line := false, multicolumn := false,
    reverse := false, sort_by_size := true, sort_by_time := false,
    color := ColorMode.never }

/-- Two entries with the same size, on which the stable sort ties. -/
def tieEntries : List Entry :=
  [{ name := "a", stat := some ⟨0, 0, 0, 0, 5, 0⟩, lstat := none },
   { name := "b", stat := some ⟨0, 0, 0, 0, 5, 0⟩, lstat := none }]

/-- Two entries with distinct sizes. -/
def distinctEntries : List Entry :=
  [{ name := "a", stat := some ⟨0, 0, 0, 0, 3, 0⟩, lstat := none },
   { name := "b", stat := some ⟨0, 0, 0, 0, 7, 0⟩, lstat := none }]

instance (opts : Options) (entries : List Entry) :
    Decidable (sortKeysDistinct opts entries) := by
  unfold sortKeysDistinct
  split
  · infer_instance
  · split <;> infer_instance

/-- Concrete path list with one missing and one succeeding path. -/
def missingFates : List (String × PathFate) :=
  [("x.txt", PathFate.missing), ("y.txt", PathFate.ok)]

/-- All-default options (no flags set, `--color=never`). -/
def defaultOpts : Options :=
  { all := false, l := false, human_readable := false, directory := false,
    recursive := false, one_per_line := false, multicolumn := false,
    reverse := false, sort_by_size := false, sort_by_time := false,
    color := ColorMode.never }

/-- Two concrete entries (a regular file and a directory) with lstat
results. -/
def demoEntries : List Entry :=
  [{ name := "f.txt", stat := some ⟨0o100644, 1, 0, 0, 12, 0⟩,
     lstat := some ⟨0o100644, 1, 0, 0, 12, 0⟩ },
   { name := "sub", stat := some ⟨0o040755, 2, 0, 0, 4096, 0⟩,
     lstat := some ⟨0o040755, 2, 0, 0, 4096, 0⟩ }]

/-- An entry whose `os.stat`/`os.lstat` both raise. -/
def badEntry : Entry := { name := "broken", stat := none, lstat := none }

/-- A two-level tree: `a/` contains `b/`, which contains `c`. -/
def deepTree : List (String × FsNode) :=
  [("a", FsNode.dir [("b", FsNode.dir [("c", FsNode.file ⟨0, 0, 0, 0, 0, 0⟩)])])]

/-- A single rendered name of visible width 10. -/
def wideName : List Rendered := [{ text := "aaaaaaaaaa", vlen := 10 }]

/-- Three short rendered names. -/
def demoRendered : List Rendered :=
  [{ text := "a", vlen := 1 }, { text := "bb", vlen := 2 },
   { text := "c", vlen := 1 }]


/-! ### Proofs about the sorting model -/

section SortDuality

variable {α κ : Type} [LinearOrder κ] (key : α → κ)

lemma orderedInsert_append_last (x y : α) (l : List α) (h : key x ≤ key y) :
    List.orderedInsert (fun a b => key a ≤ key b) x (l ++ [y]) =
      List.orderedInsert (fun a b => key a ≤ key b) x l ++ [y] := by
  induction l with
  | nil => simp [List.orderedInsert, h]
  | cons z l ih =>
    by_cases hz : key x ≤ key z <;> simp [List.orderedInsert, hz, ih]

lemma orderedInsert_of_forall_not (x : α) (l : List α)
    (h : ∀ z ∈ l, ¬ key x ≤ key z) :
    List.orderedInsert (fun a b => key a ≤ key b) x l = l ++ [x] := by
  induction l with
  | nil => simp [List.orderedInsert]
  | cons z l ih =>
    have hz := h z (List.mem_cons_self z l)
    simp only [List.orderedInsert, if_neg hz, List.cons_append, List.cons.injEq,
      true_and]
    exact ih (fun w hw => h w (List.mem_cons_of_mem z hw))

lemma orderedInsert_desc_reverse (x : α) (s : List α)
    (hs : s.Sorted (fun a b => key a ≤ key b))
    (hx : ∀ z ∈ s, key z ≠ key x) :
    List.orderedInsert (fun a b => key b ≤ key a) x s.reverse =
      (List.orderedInsert (fun a b => key a ≤ key b) x s).reverse := by
  induction s using List.reverseRecOn with
  | nil => simp [List.orderedInsert]
  | append_singleton s y ih =>
    have hsa := List.pairwise_append.mp hs
    have hss : s.Sorted (fun a b => key a ≤ key b) := hsa.1
    have hsy : ∀ z ∈ s, key z ≤ key y := by
      intro z hz
      exact hsa.2.2 z hz y (List.mem_singleton_self y)
    have hyx' : key y ≠ key x := hx y (by simp)
    by_cases hyx : key y ≤ key x
    · have hnot : ∀ z ∈ s ++ [y], ¬ key x ≤ key z := by
        intro z hz hle
        rcases List.mem_append.mp hz with hzs | hzy
        · exact hx z (List.mem_append_left _ hzs)
            (le_antisymm (le_trans (hsy z hzs) hyx) hle)
        · have hz' : z = y := List.mem_singleton.mp hzy
          subst hz'
          exact hyx' (le_antisymm hyx hle)
      rw [orderedInsert_of_forall_not key x _ hnot]
      simp [List.orderedInsert, hyx]
    · have hxy : key x ≤ key y := le_of_not_le hyx
      rw [orderedInsert_append_last key x y s hxy]
      have hx' : ∀ z ∈ s, key z ≠ key x := fun z hz =>
        hx z (List.mem_append_left _ hz)
      simp [List.orderedInsert, hyx, ih hss hx']

/-- Duality of the two stable sorts: when the key values are pairwise
distinct, the stable descending sort is the reversal of the stable
ascending sort.  (With repeated keys this fails: stability keeps equal-key
elements in original order in both directions.) -/
theorem sortDesc_eq_reverse_sortAsc (l : List α)
    (hl : (l.map key).Pairwise (· ≠ ·)) :
    sortDesc key l = (sortAsc key l).reverse := by
  induction l with
  | nil => rfl
  | cons x l ih =>
    rw [List.map_cons, List.pairwise_cons] at hl
    have hx : ∀ z ∈ l, key x ≠ key z := by
      intro z hz
      exact hl.1 (key z) (List.mem_map_of_mem key hz)
    haveI : IsTotal α (fun a b => key a ≤ key b) :=
      ⟨fun a b => le_total (key a) (key b)⟩
    haveI : IsTrans α (fun a b => key a ≤ key b) :=
      ⟨fun _ _ _ hab hbc => le_trans hab hbc⟩
    have hs : (sortAsc key l).Sorted (fun a b => key a ≤ key b) :=
      List.sorted_insertionSort _ l
    have hmem : ∀ z ∈ sortAsc key l, key z ≠ key x := by
      intro z hz
      exact (hx z ((List.perm_insertionSort _ l).mem_iff.mp hz)).symm
    have ihl := ih (by
      rw [List.pairwise_map] at hl ⊢
      exact hl.2)
    simp only [sortDesc, sortAsc, List.insertionSort] at ihl ⊢
    rw [ihl]
    exact orderedInsert_desc_reverse key x _ hs hmem

end SortDuality

/-! ### The division loop of `format_size` in closed form -/

lemma humanLoopAux_eq (n : Nat) :
    ∀ i, i ≤ unitIndex n →
      humanLoopAux (8 - i) ((n : ℚ) / 1024 ^ i) i =
        ((n : ℚ) / 1024 ^ unitIndex n, unitIndex n) := by
  suffices H : ∀ d i, i ≤ unitIndex n → unitIndex n - i = d →
      humanLoopAux (8 - i) ((n : ℚ) / 1024 ^ i) i =
        ((n : ℚ) / 1024 ^ unitIndex n, unitIndex n) by
    intro i hi
    exact H (unitIndex n - i) i hi rfl
  have hk8 : unitIndex n ≤ 8 := min_le_right _ _
  intro d
  induction d with
  | zero =>
    intro i hi hd
    have hik : i = unitIndex n := by omega
    rw [← hik]
    rcases Nat.eq_or_lt_of_le (hik ▸ hk8) with h8 | h8
    · rw [h8]
      simp [humanLoopAux]
    · have hfuel : 8 - i = (8 - i - 1) + 1 := by omega
      have hlog : Nat.log 1024 n = i := by
        have := min_le_left (Nat.log 1024 n) 8
        unfold unitIndex at hik
        omega
      have hlt : (n : ℚ) / 1024 ^ i < 1024 := by
        have hn : n < 1024 ^ (i + 1) := by
          have := Nat.lt_pow_succ_log_self (by norm_num : (1:Nat) < 1024) n
          rwa [hlog] at this
        rw [div_lt_iff₀ (by positivity)]
        have : ((n : ℚ)) < ((1024 ^ (i + 1) : Nat) : ℚ) := by
          exact_mod_cast hn
        calc ((n : ℚ)) < ((1024 ^ (i + 1) : Nat) : ℚ) := this
          _ = 1024 * 1024 ^ i := by push_cast [pow_succ]; ring
      rw [hfuel]
      simp only [humanLoopAux]
      rw [if_neg]
      rintro ⟨h1, _⟩
      linarith
  | succ d ih =>
    intro i hi hd
    have hik : i < unitIndex n := by omega
    have hi8 : i < 8 := by omega
    have hnpos : n ≠ 0 := by
      intro h0
      rw [h0] at hik
      simp [unitIndex, Nat.log_zero_right] at hik
    have hge : 1024 ^ (i + 1) ≤ n := by
      calc 1024 ^ (i + 1) ≤ 1024 ^ Nat.log 1024 n := by
            apply Nat.pow_le_pow_right (by norm_num)
            have := min_le_left (Nat.log 1024 n) 8
            unfold unitIndex at hik
            omega
        _ ≤ n := Nat.pow_log_le_self 1024 hnpos
    have hguard : (1024 : ℚ) ≤ (n : ℚ) / 1024 ^ i := by
      rw [le_div_iff₀ (by positivity)]
      have : ((1024 ^ (i + 1) : Nat) : ℚ) ≤ (n : ℚ) := by exact_mod_cast hge
      calc (1024 : ℚ) * 1024 ^ i = ((1024 ^ (i + 1) : Nat) : ℚ) := by
            push_cast [pow_succ]; ring
        _ ≤ (n : ℚ) := this
    have hfuel : 8 - i = (8 - (i + 1)) + 1 := by omega
    rw [hfuel]
    simp only [humanLoopAux]
    rw [if_pos ⟨hguard, hi8⟩]
    have harg : (n : ℚ) / 1024 ^ i / 1024 = (n : ℚ) / 1024 ^ (i + 1) := by
      rw [div_div, ← pow_succ]
    rw [harg]
    exact ih (i + 1) (by omega) (by omega)

/-- The division loop of `format_size` computes `n / 1024 ^ unitIndex n`
and stops at unit index `unitIndex n`. -/
lemma humanLoop_eq (n : Nat) :
    humanLoop (n : ℚ) = ((n : ℚ) / 1024 ^ unitIndex n, unitIndex n) := by
  have := humanLoopAux_eq n 0 (Nat.zero_le _)
  simpa [humanLoop] using this


/-! ### Claim C6: human-readable size formatting -/

/-- Claim C6: for every nonnegative byte count, human-readable formatting
repeatedly divides by 1024 while the value is at least 1024, choosing a
suffix from the unit table; with no division the integer is printed bare;
after a division a final value below 10 gets one decimal place except
that exactly 1.0 is printed as an integer, and a final value of at least
10 is truncated to an integer.  In particular `format(1536) = "1.5K"`,
`format(1024) = "1K"`, `format(1048576) = "1M"` and `format(0) = "0"`. -/
theorem format_size_human_spec (n : Nat) :
    (unitIndex n = 0 ↔ n < 1024) ∧
    (0 < unitIndex n → 1024 ^ unitIndex n ≤ n) ∧
    (unitIndex n < 8 → (n : ℚ) / 1024 ^ unitIndex n < 1024) ∧
    humanLoop (n : ℚ) = ((n : ℚ) / 1024 ^ unitIndex n, unitIndex n) ∧
    format_size n true =
      (if unitIndex n = 0 then toString n
       else
         (if (n : ℚ) / 1024 ^ unitIndex n < 10 then
            (if (n : ℚ) / 1024 ^ unitIndex n = 1 then "1"
             else oneDecimalStr ((n : ℚ) / 1024 ^ unitIndex n))
          else toString ⌊(n : ℚ) / 1024 ^ unitIndex n⌋) ++
         sizeUnits.getD (unitIndex n) "") ∧
    format_size 1536 true = "1.5K" ∧ format_size 1024 true = "1K" ∧
    format_size 1048576 true = "1M" ∧ format_size 0 true = "0" := by
  refine ⟨?_, ?_, ?_, humanLoop_eq n, ?_, ?_, ?_, ?_, ?_⟩
  · unfold unitIndex
    rw [Nat.min_eq_zero_iff, Nat.log_eq_zero_iff]
    constructor
    · rintro ((h | h) | h) <;> omega
    · intro h
      exact Or.inl (Or.inl h)
  · intro hk
    have hn : n ≠ 0 := by
      intro h0
      rw [h0] at hk
      simp [unitIndex, Nat.log_zero_right] at hk
    calc 1024 ^ unitIndex n ≤ 1024 ^ Nat.log 1024 n := by
          apply Nat.pow_le_pow_right (by norm_num)
          exact min_le_left _ _
      _ ≤ n := Nat.pow_log_le_self 1024 hn
  · intro hk
    have hlog : Nat.log 1024 n = unitIndex n := by
      have := min_le_left (Nat.log 1024 n) 8
      unfold unitIndex at hk ⊢
      omega
    have hn : n < 1024 ^ (unitIndex n + 1) := by
      have := Nat.lt_pow_succ_log_self (by norm_num : (1:Nat) < 1024) n
      rwa [hlog] at this
    rw [div_lt_iff₀ (by positivity)]
    calc ((n : ℚ)) < ((1024 ^ (unitIndex n + 1) : Nat) : ℚ) := by exact_mod_cast hn
      _ = 1024 * 1024 ^ unitIndex n := by push_cast [pow_succ]; ring
  · have hl := humanLoop_eq n
    simp only [format_size, hl]
    norm_num
    split_ifs <;> rfl
  · norm_num [format_size, humanLoop, humanLoopAux, oneDecimalStr,
      roundHalfEven, sizeUnits]
    rfl
  · norm_num [format_size, humanLoop, humanLoopAux, oneDecimalStr,
      roundHalfEven, sizeUnits]
    rfl
  · norm_num [format_size, humanLoop, humanLoopAux, oneDecimalStr,
      roundHalfEven, sizeUnits]
    rfl
  · norm_num [format_size, humanLoop, humanLoopAux, oneDecimalStr,
      roundHalfEven, sizeUnits]
    rfl

/-- Witness for C6: the division count for 1536 is 1, `1024 ^ 1 ≤ 1536`,
and the rendering is `"1.5K"`. -/
theorem format_size_human_spec_witness :
    1024 ^ unitIndex 1536 ≤ 1536 ∧ format_size 1536 true = "1.5K" := by
  refine ⟨(format_size_human_spec 1536).2.1 ?_, (format_size_human_spec 1536).2.2.2.2.2.1⟩
  have h : Nat.log 1024 1536 = 1 :=
    Nat.log_eq_of_pow_le_of_lt_pow (by norm_num) (by norm_num)
  simp [unitIndex, h]

/-! ### Claim C3: size 2048 with `-H` -/

/-- Claim C3 counterexample: `format_size(2048, human_readable=True)` is
not `"2K"` — 2048 divides once to exactly 2.0, which is below 10 and not
1.0, so the one-decimal branch renders it. -/
theorem format_size_2048_ne_2K : format_size 2048 true ≠ "2K" := by
  norm_num [format_size, humanLoop, humanLoopAux, oneDecimalStr,
    roundHalfEven, sizeUnits]
  decide

/-- Claim C3 amended: a long-format listing with human-readable sizes of
a regular file of 2048 bytes renders the size column as `"2.0K"`. -/
theorem format_size_2048_eq : format_size 2048 true = "2.0K" := by
  norm_num [format_size, humanLoop, humanLoopAux, oneDecimalStr,
    roundHalfEven, sizeUnits]
  rfl

/-! ### Claim C8: the permission string -/

/-- Claim C8: for every mode value the permission string has exactly 10
characters, its first character is one of `-dlpsbc`, and each triplet's
execute slot encodes setuid/setgid/sticky as `s`/`t` when the execute bit
is also set and as `S`/`T` when the special bit is set without it. -/
theorem format_mode_spec (mode : Nat) :
    (format_mode mode).length = 10 ∧
    fileTypeChar mode ∈ ['-', 'd', 'l', 'p', 's', 'b', 'c'] ∧
    (formatModeChars mode)[0]? = some (fileTypeChar mode) ∧
    (mode &&& 0o4000 ≠ 0 → mode &&& 0o100 ≠ 0 →
      (formatModeChars mode)[3]? = some 's') ∧
    (mode &&& 0o4000 ≠ 0 → mode &&& 0o100 = 0 →
      (formatModeChars mode)[3]? = some 'S') ∧
    (mode &&& 0o2000 ≠ 0 → mode &&& 0o10 ≠ 0 →
      (formatModeChars mode)[6]? = some 's') ∧
    (mode &&& 0o2000 ≠ 0 → mode &&& 0o10 = 0 →
      (formatModeChars mode)[6]? = some 'S') ∧
    (mode &&& 0o1000 ≠ 0 → mode &&& 0o1 ≠ 0 →
      (formatModeChars mode)[9]? = some 't') ∧
    (mode &&& 0o1000 ≠ 0 → mode &&& 0o1 = 0 →
      (formatModeChars mode)[9]? = some 'T') := by
  have e3 : (formatModeChars mode)[3]? =
      some (if mode &&& 0o4000 ≠ 0 then
              (if mode &&& 0o100 ≠ 0 then 's' else 'S')
            else (if mode &&& 0o100 ≠ 0 then 'x' else '-')) := rfl
  have e6 : (formatModeChars mode)[6]? =
      some (if mode &&& 0o2000 ≠ 0 then
              (if mode &&& 0o10 ≠ 0 then 's' else 'S')
            else (if mode &&& 0o10 ≠ 0 then 'x' else '-')) := rfl
  have e9 : (formatModeChars mode)[9]? =
      some (if mode &&& 0o1000 ≠ 0 then
              (if mode &&& 0o1 ≠ 0 then 't' else 'T')
            else (if mode &&& 0o1 ≠ 0 then 'x' else '-')) := rfl
  refine ⟨rfl, ?_, rfl, ?_, ?_, ?_, ?_, ?_, ?_⟩
  · unfold fileTypeChar
    split_ifs <;> simp
  · intro h1 h2
    rw [e3, if_pos h1, if_pos h2]
  · intro h1 h2
    rw [e3, if_pos h1, if_neg (by omega)]
  · intro h1 h2
    rw [e6, if_pos h1, if_pos h2]
  · intro h1 h2
    rw [e6, if_pos h1, if_neg (by omega)]
  · intro h1 h2
    rw [e9, if_pos h1, if_pos h2]
  · intro h1 h2
    rw [e9, if_pos h1, if_neg (by omega)]

/-- Witness for C8 at mode `0o4755` (setuid + rwxr-xr-x): the string has
length 10 and the owner execute slot shows `s`. -/
theorem format_mode_spec_witness :
    (0o4755 &&& 0o4000 ≠ 0) ∧ (0o4755 &&& 0o100 ≠ 0) ∧
    (format_mode 0o4755).length = 10 ∧
    (formatModeChars 0o4755)[3]? = some 's' :=
  ⟨by decide, by decide, (format_mode_spec 0o4755).1,
   (format_mode_spec 0o4755).2.2.2.1 (by decide) (by decide)⟩

/-! ### Claim C9: the hidden-entry filter -/

/-- Claim C9: an entry whose name starts with `.` appears after the
hidden-entry filter iff `-a` is set, and the synthetic `.`/`..` entries
appear exactly when `-a` is set. -/
theorem filter_hidden_spec (names : List String) (all : Bool) :
    (∀ e ∈ names, startsWithDot e = true →
      (e ∈ filterHiddenStage all names ↔ all = true)) ∧
    (("." ∈ filterHiddenStage all names ∨ ".." ∈ filterHiddenStage all names)
      → all = true) ∧
    (all = true →
      "." ∈ filterHiddenStage all names ∧ ".." ∈ filterHiddenStage all names) := by
  cases all with
  | true =>
    refine ⟨?_, fun _ => rfl, ?_⟩
    · intro e he _
      simp [filterHiddenStage, he, List.mem_cons]
    · intro _
      simp [filterHiddenStage]
  | false =>
    have hdot : startsWithDot "." = true := by decide
    have hdots : startsWithDot ".." = true := by decide
    refine ⟨?_, ?_, ?_⟩
    · intro e _ he
      simp [filterHiddenStage, List.mem_filter, he]
    · rintro (h | h)
      · rw [filterHiddenStage] at h
        simp [List.mem_filter, hdot] at h
      · rw [filterHiddenStage] at h
        simp [List.mem_filter, hdots] at h
    · intro h
      exact absurd h (by simp)

/-- Witness for C9: in a directory `[file1.txt, file2.txt, .hidden]`, the
hidden name is listed exactly under `-a`, which also lists `.`/`..`. -/
theorem filter_hidden_spec_witness :
    (".hidden" ∈ ["file1.txt", "file2.txt", ".hidden"] ∧
      startsWithDot ".hidden" = true) ∧
    (".hidden" ∈ filterHiddenStage true ["file1.txt", "file2.txt", ".hidden"]
      ↔ true = true) ∧
    ("." ∈ filterHiddenStage true ["file1.txt", "file2.txt", ".hidden"] ∧
     ".." ∈ filterHiddenStage true ["file1.txt", "file2.txt", ".hidden"]) :=
  ⟨⟨by decide, by decide⟩,
   (filter_hidden_spec ["file1.txt", "file2.txt", ".hidden"] true).1 ".hidden"
     (by decide) (by decide),
   (filter_hidden_spec ["file1.txt", "file2.txt", ".hidden"] true).2.2 rfl⟩

/-! ### Claim C1: the reverse flag versus list reversal -/

lemma pairwise_data_ne (l : List String) (h : l.Pairwise (· ≠ ·)) :
    (l.map (fun s : String => s.data)).Pairwise (· ≠ ·) := by
  rw [List.pairwise_map]
  refine h.imp ?_
  intro a b hab hd
  exact hab (String.ext hd)

/-- Claim C1 counterexample: with two entries of equal size, sorting by
size with the reverse flag is not the reversal of sorting without it —
Python's sort is stable, so both directions keep the tied pair in
insertion order. -/
theorem sort_reverse_counterexample :
    sortStage { tieOpts with reverse := true } tieEntries ≠
      (sortStage tieOpts tieEntries).reverse := by decide

/-- Claim C1 amended: the identity `sort(entries, key, reverse=True) =
reverse(sort(entries, key, reverse=False))` holds whenever the active
key's values are pairwise distinct over the sorted items (names are
always distinct in a directory listing; for size/mtime ties it fails by
stability). -/
theorem sort_reverse_spec (opts : Options) (entries : List Entry)
    (h : sortKeysDistinct opts entries) :
    sortStage { opts with reverse := true } entries =
      (sortStage { opts with reverse := false } entries).reverse := by
  obtain ⟨al, lv, hr, dv, rc, op, mc, rv, sbs, sbt, cm⟩ := opts
  cases sbt with
  | true =>
    simp only [sortKeysDistinct] at h
    norm_num at h
    simp only [sortStage]
    norm_num
    rw [sortDesc_eq_reverse_sortAsc (fun p : Entry × Stat => p.2.st_mtime) _ h]
    simp
  | false =>
    cases sbs with
    | true =>
      simp only [sortKeysDistinct] at h
      norm_num at h
      simp only [sortStage]
      norm_num
      rw [sortDesc_eq_reverse_sortAsc (fun p : Entry × Stat => p.2.st_size) _ h]
      simp
    | false =>
      simp only [sortKeysDistinct] at h
      norm_num at h
      simp only [sortStage]
      norm_num
      rw [sortDesc_eq_reverse_sortAsc (fun s : String => s.data) _
        (pairwise_data_ne _ h)]

/-- Witness for C1 (amended): with distinct sizes the reverse flag is
exactly list reversal. -/
theorem sort_reverse_spec_witness :
    sortKeysDistinct tieOpts distinctEntries ∧
    sortStage { tieOpts with reverse := true } distinctEntries =
      (sortStage tieOpts distinctEntries).reverse :=
  ⟨by decide, sort_reverse_spec tieOpts distinctEntries (by decide)⟩

/-! ### Claim C7: missing paths in `main` -/

lemma pathCode_le_one (f : PathFate) : pathCode f ≤ 1 := by
  cases f <;> simp [pathCode]

lemma mainLoop_fst_le_one (ps : List (String × PathFate)) :
    (mainLoop ps).1 ≤ 1 := by
  induction ps with
  | nil => simp [mainLoop]
  | cons q rest ih =>
    simp only [mainLoop]
    exact max_le (pathCode_le_one q.2) ih

/-- Claim C7: every command-line path is processed in order; a missing
path contributes the `No such file or directory` line to the error stream
and forces exit code 1, without stopping later paths; if every path
succeeds the exit code is 0. -/
theorem main_missing_path_spec (ps : List (String × PathFate)) :
    ((mainLoop ps).2 = ps.flatMap (fun q => pathStderr q.1 q.2)) ∧
    (∀ p, (p, PathFate.missing) ∈ ps →
      (mainLoop ps).1 = 1 ∧
      ("ls: cannot access '" ++ p ++ "': No such file or directory")
        ∈ (mainLoop ps).2) ∧
    ((∀ q ∈ ps, q.2 = PathFate.ok) → (mainLoop ps).1 = 0) := by
  induction ps with
  | nil => simp [mainLoop]
  | cons q rest ih =>
    refine ⟨?_, ?_, ?_⟩
    · simp [mainLoop, ih.1]
    · intro p hp
      rcases List.mem_cons.mp hp with heq | hmem
      · subst heq
        constructor
        · have h1 := mainLoop_fst_le_one rest
          simp [mainLoop, pathCode]
          omega
        · simp [mainLoop, pathStderr]
      · constructor
        · have h1 := (ih.2.1 p hmem).1
          have h2 := pathCode_le_one q.2
          simp [mainLoop]
          omega
        · have hr := (ih.2.1 p hmem).2
          simp only [mainLoop, List.mem_append]
          exact Or.inr hr
    · intro hall
      have hq : q.2 = PathFate.ok := hall q (List.mem_cons_self q rest)
      have hr := ih.2.2 (fun w hw => hall w (List.mem_cons_of_mem q hw))
      simp [mainLoop, hq, pathCode, hr]

/-- Witness for C7: listing `x.txt` (missing) then `y.txt` yields exit
code 1, the expected error line, and both paths' contributions. -/
theorem main_missing_path_spec_witness :
    ("x.txt", PathFate.missing) ∈ missingFates ∧
    (mainLoop missingFates).1 = 1 ∧
    ("ls: cannot access 'x.txt': No such file or directory")
      ∈ (mainLoop missingFates).2 ∧
    (mainLoop missingFates).2 =
      missingFates.flatMap (fun q => pathStderr q.1 q.2) :=
  ⟨by decide,
   ((main_missing_path_spec missingFates).2.1 "x.txt" (by decide)).1,
   ((main_missing_path_spec missingFates).2.1 "x.txt" (by decide)).2,
   (main_missing_path_spec missingFates).1⟩

/-! ### Claim C10: non-terminal default layout -/

/-- Claim C10: when stdout is not a terminal and none of `-l`, `-1`, `-C`
is set, the default branch prints each (possibly colorized) entry on its
own line and the grid-layout computation is bypassed. -/
theorem non_tty_one_per_line (userName groupName : Nat → String)
    (opts : Options) (w : Nat) (entries : List Entry)
    (hl : opts.l = false) (h1 : opts.one_per_line = false)
    (hC : opts.multicolumn = false) :
    renderStage userName groupName opts false w entries =
      RenderOut.lines
        (entries.map (fun e => (renderedName opts.color false e).text)) := by
  simp [renderStage, hl, h1, hC]

/-- Witness for C10 at concrete options and entries. -/
theorem non_tty_one_per_line_witness :
    defaultOpts.l = false ∧ defaultOpts.one_per_line = false ∧
    defaultOpts.multicolumn = false ∧
    renderStage (fun u => toString u) (fun g => toString g) defaultOpts
        false 80 demoEntries =
      RenderOut.lines
        (demoEntries.map (fun e => (renderedName defaultOpts.color false e).text)) :=
  ⟨rfl, rfl, rfl,
   non_tty_one_per_line (fun u => toString u) (fun g => toString g)
     defaultOpts 80 demoEntries rfl rfl rfl⟩

/-! ### Claim C2: entry-level metadata failures -/

/-- Claim C2 counterexample: a directory with a single entry whose
metadata resolution fails is listed with exit code 0 and an empty error
stream — the failure is not reported and does not set the exit code. -/
theorem stat_failure_counterexample :
    ¬ ((∃ e ∈ [badEntry], e.lstat = none) →
      (list_directory_long (fun u => toString u) (fun g => toString g)
          defaultOpts false "d" (Except.ok [badEntry])).exitCode = 1 ∧
      (list_directory_long (fun u => toString u) (fun g => toString g)
          defaultOpts false "d" (Except.ok [badEntry])).errLines ≠ []) := by
  intro h
  have := h ⟨badEntry, by decide, rfl⟩
  simp [list_directory_long] at this

/-- Claim C2 amended: entries whose metadata resolution fails are
silently skipped — `list_directory` writes nothing to the error stream,
returns exit code 0, and the surviving entries are all rendered, in
order. -/
theorem stat_failure_skipped (userName groupName : Nat → String)
    (opts : Options) (isatty : Bool) (directory : String)
    (entries : List Entry) :
    (list_directory_long userName groupName opts isatty directory
        (Except.ok entries)).exitCode = 0 ∧
    (list_directory_long userName groupName opts isatty directory
        (Except.ok entries)).errLines = [] ∧
    (list_directory_long userName groupName opts isatty directory
        (Except.ok entries)).rows.map (fun r => r.name) =
      entries.filterMap (fun e => e.lstat.map (fun st =>
        colorizeName opts.color isatty st.st_mode e.name)) := by
  refine ⟨rfl, rfl, ?_⟩
  simp only [list_directory_long, longRows, List.map_filterMap,
    Option.map_map]
  rfl

/-! ### Claim C4: the recursive tail -/

/-- Claim C4 counterexample: on a tree with a sub-subdirectory the
recursive tail emits only the immediate subdirectory's block — the
spec-described full recursion (any sufficient fuel, here 3) would also
emit a `root/a/b:` header and `c`. -/
theorem recursive_tail_counterexample :
    recursiveTailCode false "root" deepTree ≠
      specTailFuel 3 false "root" deepTree := by decide

/-- Claim C4 amended: with `-R`, after a directory's own block the walker
prints, for each immediate non-dot, non-symlink subdirectory with a
nonempty raw listing (in the parent's listing order), a blank line and a
`path:` header followed by the subdirectory's names sorted ascending and
hidden-filtered unless `-a`; it does not recurse deeper and applies no
other rendering. -/
theorem recursive_tail_one_level (all : Bool) (dirPath : String)
    (children : List (String × FsNode)) :
    recursiveTailCode all dirPath children =
      amendedRecursiveSpec all dirPath children := by
  induction children with
  | nil => rfl
  | cons c rest ih =>
    obtain ⟨nm, node⟩ := c
    cases node with
    | file st => simpa [recursiveTailCode, amendedRecursiveSpec] using ih
    | link st => simpa [recursiveTailCode, amendedRecursiveSpec] using ih
    | dir listing =>
      have ih' := ih
      simp only [recursiveTailCode, amendedRecursiveSpec] at ih' ⊢
      rw [List.flatMap_cons, List.filter_cons]
      by_cases h1 : nm = "."
      · simp [h1, ih']
      by_cases h2 : nm = ".."
      · simp [h1, h2, ih']
      by_cases hempty : listing.isEmpty
      · simp [h1, h2, hempty, ih']
      · simp [h1, h2, hempty, ih', childNames]

/-! ### Claim C5: the multi-column grid -/

lemma filterMap_range_getElem? {α : Type} (g : Nat → Option α)
    (hg : ∀ i j : Nat, i ≤ j → (g j).isSome → (g i).isSome) :
    ∀ (m c : Nat), ((List.range m).filterMap g)[c]? =
      if c < m then g c else none := by
  intro m
  induction m generalizing g with
  | zero =>
    intro c
    simp
  | succ m ih =>
    intro c
    rw [List.range_succ_eq_map, List.filterMap_cons]
    cases h0 : g 0 with
    | none =>
      have hall : ∀ i, g i = none := by
        intro i
        cases hi : g i with
        | none => rfl
        | some a =>
          have hsome := hg 0 i (Nat.zero_le i) (by simp [hi])
          rw [h0] at hsome
          simp at hsome
      rw [List.filterMap_map]
      have hnil : List.filterMap (g ∘ Nat.succ) (List.range m) = [] :=
        List.filterMap_eq_nil_iff.mpr (fun a _ => hall _)
      rw [hnil, hall c]
      simp
    | some a =>
      rw [List.filterMap_map]
      have hrec := ih (fun i => g (i + 1))
        (fun i j hij hs => hg (i + 1) (j + 1) (by omega) hs)
      cases c with
      | zero => simp [h0]
      | succ c =>
        simp only [List.getElem?_cons_succ]
        rw [show (g ∘ Nat.succ) = (fun i => g (i + 1)) from rfl, hrec c]
        by_cases h : c < m
        · rw [if_pos h, if_pos (by omega)]
        · rw [if_neg h, if_neg (by omega)]

lemma filterMap_range_getElem?_self {α : Type} (es : List α) :
    ∀ m, es.length ≤ m →
      (List.range m).filterMap (fun i => es[i]?) = es := by
  induction es with
  | nil =>
    intro m _
    exact List.filterMap_eq_nil_iff.mpr (fun a _ => by simp)
  | cons x es ih =>
    intro m hm
    cases m with
    | zero => simp at hm
    | succ m =>
      rw [List.range_succ_eq_map, List.filterMap_cons, List.filterMap_map]
      have hcomp : ((fun i => (x :: es)[i]?) ∘ Nat.succ) =
          fun i => es[i]? := by
        funext i
        simp
      rw [hcomp, ih m (by simpa using hm)]
      simp

lemma transpose_flatten_perm (rows cols : Nat) (hrows : 0 < rows) :
    ((List.range rows).map (fun r =>
      (List.range cols).map (fun c => c * rows + r))).flatten.Perm
      (List.range (rows * cols)) := by
  have hnd : ((List.range rows).map (fun r =>
      (List.range cols).map (fun c => c * rows + r))).flatten.Nodup := by
    apply List.nodup_flatten.mpr
    constructor
    · intro l hl
      rcases List.mem_map.mp hl with ⟨r, _, rfl⟩
      refine List.Nodup.map ?_ (List.nodup_range cols)
      intro c1 c2 hc
      dsimp only at hc
      have h12 : c1 * rows = c2 * rows := by omega
      exact Nat.eq_of_mul_eq_mul_right hrows h12
    · rw [List.pairwise_map]
      refine List.Pairwise.imp_of_mem ?_ (List.nodup_range rows)
      intro r1 r2 h1 h2 hne k hk1 hk2
      rcases List.mem_map.mp hk1 with ⟨c1, _, rfl⟩
      rcases List.mem_map.mp hk2 with ⟨c2, _, heq⟩
      have hr1 : r1 < rows := List.mem_range.mp h1
      have hr2 : r2 < rows := List.mem_range.mp h2
      have e1 : (c1 * rows + r1) % rows = r1 := by
        rw [Nat.add_comm, Nat.add_mul_mod_self_right, Nat.mod_eq_of_lt hr1]
      have e2 : (c2 * rows + r2) % rows = r2 := by
        rw [Nat.add_comm, Nat.add_mul_mod_self_right, Nat.mod_eq_of_lt hr2]
      apply hne
      rw [← e1, ← e2, heq]
  refine (List.perm_ext_iff_of_nodup hnd (List.nodup_range _)).mpr ?_
  intro k
  rw [List.mem_range, List.mem_flatten]
  constructor
  · rintro ⟨l, hl, hkl⟩
    rcases List.mem_map.mp hl with ⟨r, hr, rfl⟩
    rcases List.mem_map.mp hkl with ⟨c, hc, rfl⟩
    have hr' : r < rows := List.mem_range.mp hr
    have hc' : c < cols := List.mem_range.mp hc
    calc c * rows + r < c * rows + rows := by omega
      _ = (c + 1) * rows := by ring
      _ ≤ cols * rows := Nat.mul_le_mul_right rows (by omega)
      _ = rows * cols := Nat.mul_comm _ _
  · intro hk
    refine ⟨(List.range cols).map (fun c => c * rows + k % rows),
      List.mem_map_of_mem _ (List.mem_range.mpr (Nat.mod_lt _ hrows)), ?_⟩
    refine List.mem_map.mpr ⟨k / rows, List.mem_range.mpr ?_, ?_⟩
    · exact (Nat.div_lt_iff_lt_mul hrows).mpr (Nat.mul_comm rows cols ▸ hk)
    · have hdm := Nat.div_add_mod k rows
      rw [Nat.mul_comm]
      omega

lemma ceil_le_mul (n c : Nat) (hc : 0 < c) : n ≤ c * ((n + c - 1) / c) := by
  have hd := Nat.div_add_mod (n + c - 1) c
  have hm : (n + c - 1) % c < c := Nat.mod_lt _ hc
  omega

lemma ceil_pred_mul_lt (n c : Nat) (hc : 0 < c) (hn : 0 < n) :
    (((n + c - 1) / c) - 1) * c < n := by
  have hq : ((n + c - 1) / c) * c ≤ n + c - 1 := Nat.div_mul_le_self _ _
  have hs : (((n + c - 1) / c) - 1) * c = ((n + c - 1) / c) * c - 1 * c :=
    Nat.sub_mul _ _ _
  omega

lemma numCols_pos (w : Nat) (es : List Rendered) : 0 < numCols w es :=
  lt_of_lt_of_le Nat.zero_lt_one (le_max_left 1 _)

lemma numRows_pos (w : Nat) (es : List Rendered) (hne : es ≠ []) :
    0 < numRows w es := by
  have hn : 0 < es.length := List.length_pos.mpr hne
  have hc : 0 < numCols w es := numCols_pos w es
  unfold numRows
  exact (Nat.one_le_div_iff hc).mpr (by omega)

lemma gridRowCells_eq (w : Nat) (es : List Rendered) (r : Nat) :
    gridRowCells w es r =
      ((List.range (numCols w es)).map
        (fun c => c * numRows w es + r)).filterMap (fun i => es[i]?) := by
  rw [List.filterMap_map]
  rfl

lemma gridCells_flatten_perm (w : Nat) (es : List Rendered) (hne : es ≠ []) :
    (gridCells w es).flatten.Perm es := by
  have hrows := numRows_pos w es hne
  have hcols := numCols_pos w es
  have h1 : gridCells w es =
      ((List.range (numRows w es)).map (fun r =>
        (List.range (numCols w es)).map (fun c => c * numRows w es + r))).map
        (List.filterMap (fun i => es[i]?)) := by
    unfold gridCells
    rw [List.map_map]
    exact List.map_congr_left (fun r _ => gridRowCells_eq w es r)
  rw [h1, ← List.filterMap_flatten]
  have hperm :=
    (transpose_flatten_perm (numRows w es) (numCols w es) hrows).filterMap
      (fun i => es[i]?)
  have hlen : es.length ≤ numRows w es * numCols w es := by
    rw [Nat.mul_comm]
    exact ceil_le_mul es.length (numCols w es) hcols
  rw [filterMap_range_getElem?_self es (numRows w es * numCols w es) hlen]
    at hperm
  exact hperm

/-- Claim C5 (amended): for every terminal width and nonempty entry set,
the column count is `max 1 (width / (maxVisible + 2))`, the row count is
the ceiling of `count / columns` (characterized by its two bounds), the
grid is filled in column-major order (cell `(r, c)` holds entry
`c * rows + r`), the printed grid contains every entry exactly once, and
— provided the widest name plus its 2-space padding fits the terminal at
all — columns times the maximum visible width does not exceed the
terminal width.  (Without that proviso the bound fails: a single
over-wide name still occupies one overflowing column.) -/
theorem grid_layout_spec (w : Nat) (es : List Rendered) (hne : es ≠ []) :
    numCols w es = max 1 (w / (maxVisibleWidth es + 2)) ∧
    es.length ≤ numRows w es * numCols w es ∧
    (numRows w es - 1) * numCols w es < es.length ∧
    (∀ r c, (gridRowCells w es r)[c]? =
      if c < numCols w es then es[c * numRows w es + r]? else none) ∧
    (gridCells w es).flatten.Perm es ∧
    (maxVisibleWidth es + 2 ≤ w →
      numCols w es * maxVisibleWidth es ≤ w) := by
  have hn : 0 < es.length := List.length_pos.mpr hne
  have hcols := numCols_pos w es
  refine ⟨rfl, ?_, ?_, ?_, gridCells_flatten_perm w es hne, ?_⟩
  · rw [Nat.mul_comm]
    exact ceil_le_mul es.length (numCols w es) hcols
  · exact ceil_pred_mul_lt es.length (numCols w es) hcols hn
  · intro r c
    have hmain := filterMap_range_getElem?
      (fun c => es[c * numRows w es + r]?) ?_ (numCols w es) c
    · exact hmain
    · intro i j hij hs
      dsimp only at hs ⊢
      have hj : j * numRows w es + r < es.length := by
        by_contra hle
        push_neg at hle
        rw [List.getElem?_eq_none hle] at hs
        simp at hs
      have hmul : i * numRows w es ≤ j * numRows w es :=
        Nat.mul_le_mul_right _ hij
      have hi : i * numRows w es + r < es.length := by omega
      rw [List.getElem?_eq_getElem hi]
      simp
  · intro h
    have hx : 1 ≤ w / (maxVisibleWidth es + 2) :=
      (Nat.one_le_div_iff (by omega)).mpr h
    have hc : numCols w es = w / (maxVisibleWidth es + 2) := by
      unfold numCols
      exact Nat.max_eq_right hx
    calc numCols w es * maxVisibleWidth es
        ≤ numCols w es * (maxVisibleWidth es + 2) :=
          Nat.mul_le_mul_left _ (by omega)
      _ = (w / (maxVisibleWidth es + 2)) * (maxVisibleWidth es + 2) := by
          rw [hc]
      _ ≤ w := Nat.div_mul_le_self _ _

/-- Claim C5 counterexample: with terminal width 5 and one name of
visible width 10, the single column exceeds the terminal width, refuting
the unconditional bound `columns * maxVisibleWidth ≤ terminalWidth`. -/
theorem grid_width_counterexample :
    ¬ (numCols 5 wideName * maxVisibleWidth wideName ≤ 5) := by decide

/-- Witness for C5 (amended) at width 80 with three short names. -/
theorem grid_layout_spec_witness :
    numCols 80 demoRendered * maxVisibleWidth demoRendered ≤ 80 ∧
    (gridCells 80 demoRendered).flatten.Perm demoRendered :=
  ⟨(grid_layout_spec 80 demoRendered (by decide)).2.2.2.2.2 (by decide),
   (grid_layout_spec 80 demoRendered (by decide)).2.2.2.2.1⟩

end PyKnifeLs
